import Mathlib

/-!
Verification of the neo4j python-embedded binding (`neo4j/core.py`,
`neo4j/traversal.py`) and of the property-graph traversal engine its
specification describes.  Pure Python glue is embedded directly from the
source; engine behaviour that lives in the wrapped Java backend (not part
of the two source files) is modelled from the specification, each such
definition marked `Modelled from the spec:`.
-/

namespace Neo4j

/-- Node identity (stable identity comparison required by the spec). -/
abbrev NodeId := Nat

/-- Relationship identity. -/
abbrev RelId := Nat

/-- Relationship type label. -/
abbrev RelTypeName := String

/-- Traversal direction, mirroring the backend `Direction` enum exposed by
`core.py` (`INCOMING`, `OUTGOING`, `BOTH`). -/
inductive Direction where
  | INCOMING
  | OUTGOING
  | BOTH
deriving DecidableEq

/-- From `core.py` line 47: `BOTH = ANY = Direction.ANY = Direction.BOTH` — the
exported name `ANY` is bound to the very same value as `BOTH`. -/
def Direction.ANY : Direction := Direction.BOTH

/-- A directed, typed relationship between two nodes (spec §3): identity,
type label, start-node reference, end-node reference. -/
structure Relationship where
  id : RelId
  reltype : RelTypeName
  startNode : NodeId
  endNode : NodeId
deriving DecidableEq

/-- Modelled from the spec: the external Graph Store collaborator, reduced to
what traversal reads — the set of relationships (nodes are the ids they
mention). -/
structure GraphStore where
  rels : List Relationship
deriving DecidableEq

/-- Modelled from the spec (§3): direction is interpreted relative to a
traversal — a relationship is "outgoing" from its start node and "incoming"
to its end node; `ANY`/`BOTH` matches either. -/
def matchesDirection (n : NodeId) (r : Relationship) : Direction → Bool
  | .OUTGOING => r.startNode == n
  | .INCOMING => r.endNode == n
  | .BOTH => r.startNode == n || r.endNode == n

/-- Modelled from the spec: the backend `getRelationships(direction)` view of
a node — its incident relationships filtered by direction. -/
def incidentRels (g : GraphStore) (n : NodeId) (d : Direction) : List Relationship :=
  g.rels.filter (fun r => matchesDirection n r d)

/-- One traversal step: the relationship taken and the node arrived at. -/
structure Step where
  rel : Relationship
  node : NodeId
deriving DecidableEq

/-- Modelled from the spec: the backend `TraversalPath` — an immutable ordered
record of one traversal branch: the start node followed by the steps taken
(alternating relationship/node).  The Python class in `traversal.py` is a
thin surface over this record. -/
structure TraversalPath where
  startNode : NodeId
  steps : List Step
deriving DecidableEq

namespace TraversalPath

/-- Modelled from the spec: `length()` — number of relationships in the path. -/
def length (p : TraversalPath) : Nat := p.steps.length

/-- From `traversal.py` line 58: `__len__` returns `self.length()`. -/
def pyLen (p : TraversalPath) : Nat := p.length

/-- From `traversal.py` line 42: the `start` property returns `self.startNode()`. -/
def start (p : TraversalPath) : NodeId := p.startNode

/-- From `traversal.py` line 45: the `end` property returns `self.endNode()` —
the last node of the path (the start node when there are no steps). -/
def endNode (p : TraversalPath) : NodeId :=
  match p.steps.getLast? with
  | some s => s.node
  | none => p.startNode

/-- Modelled from the spec: the backend node sequence — always length + 1
nodes, in visitation order; surfaced by the `nodes` property
(`traversal.py` line 51). -/
def nodes (p : TraversalPath) : List NodeId :=
  p.startNode :: p.steps.map (·.node)

/-- Modelled from the spec: the backend relationship sequence — always
`length` relationships, in visitation order; surfaced by the
`relationships` property (`traversal.py` line 54). -/
def relationships (p : TraversalPath) : List Relationship :=
  p.steps.map (·.rel)

/-- From `traversal.py` line 48: the `last_relationship` property returns
`self.lastRelationship()`, the none-marker on a zero-length path. -/
def last_relationship (p : TraversalPath) : Option Relationship :=
  (p.steps.getLast?).map (·.rel)

/-- Appending one step to a path (how the traverser extends a branch). -/
def extend (p : TraversalPath) (r : Relationship) (n : NodeId) : TraversalPath :=
  { p with steps := p.steps ++ [⟨r, n⟩] }

/-- Path `q` extends path `p`: same start node and `p`'s step sequence is an initial
segment of `q`'s. -/
def Extends (p q : TraversalPath) : Prop :=
  q.startNode = p.startNode ∧ ∃ ext, q.steps = p.steps ++ ext

end TraversalPath

/-- Modelled from the spec (§3): an evaluation decision — a pair of booleans
`continue_expanding` and `include_in_results` (the backend `Evaluation`
enum's four combinations). -/
structure Evaluation where
  continue_expanding : Bool
  include_in_results : Bool
deriving DecidableEq

/-- Modelled from the spec: the backend `Evaluator` interface — a single
operation `evaluate(path)`. -/
structure Evaluator where
  evaluate : TraversalPath → Evaluation

/-- From `traversal.py` lines 28-33: `DynamicEvaluator` wraps a plain callable so
that `evaluate(path)` returns `self._eval_method(path)`. -/
def DynamicEvaluator (eval_method : TraversalPath → Evaluation) : Evaluator :=
  { evaluate := fun path => eval_method path }

/-- The argument accepted by the `evaluator` builder call: either a plain
callable (`hasattr(ev, '__call__')` in `traversal.py` line 78) or an object
already conforming to the `Evaluator` interface. -/
inductive EvaluatorArg where
  | callable (f : TraversalPath → Evaluation)
  | evaluatorObj (e : Evaluator)

/-- A backend relationship type object, as produced by `rel_type`. -/
structure RelType where
  name : RelTypeName
deriving DecidableEq

/-- From `core.py`: `rel_type(attr)` builds the backend relationship type for a
string name. -/
def rel_type (s : String) : RelType := ⟨s⟩

/-- From `core.py` lines 51-56: a `DirectionalType` pairs a relationship type with
a direction (as produced by e.g. `OUTGOING.KNOWS`). -/
structure DirectionalType where
  type : RelType
  dir : Direction
deriving DecidableEq

/-- The `reltype` argument accepted by `TraversalDescriptionImpl.relationships`
(`traversal.py` lines 68-74): a string, a `DirectionalType`, or a backend
relationship type. -/
inductive RelTypeArg where
  | str (s : String)
  | directional (dt : DirectionalType)
  | reltype (t : RelType)
deriving DecidableEq

/-- Modelled from the spec (§4.3): the closed set of uniqueness policies. -/
inductive Uniqueness where
  | NODE_GLOBAL
  | RELATIONSHIP_GLOBAL
  | NODE_PATH
  | RELATIONSHIP_PATH
  | NONE
deriving DecidableEq

/-- Modelled from the spec (§4.4): the traversal order — breadth-first or
depth-first. -/
inductive TraversalOrder where
  | BREADTH_FIRST
  | DEPTH_FIRST
deriving DecidableEq

/-- Modelled from the spec (§3, §4.4): the backend `TraversalDescriptionImpl`
configuration — a mapping from relationship type to allowed direction (empty
mapping = all types, direction ANY), the ordered evaluator sequence, one
uniqueness policy and one traversal order. -/
structure TraversalDescription where
  relFilters : List (RelTypeName × Direction)
  evaluators : List Evaluator
  uniqueness : Uniqueness
  order : TraversalOrder

/-- Looking a type up in the type→direction filter mapping. -/
def lookupFilter (fs : List (RelTypeName × Direction)) (t : RelTypeName) :
    Option Direction :=
  (fs.find? (fun p => p.1 == t)).map (·.2)

/-- Adding or overriding one entry of the type→direction filter mapping. -/
def setFilter (fs : List (RelTypeName × Direction)) (t : RelTypeName)
    (d : Direction) : List (RelTypeName × Direction) :=
  if fs.any (fun p => p.1 == t) then
    fs.map (fun p => if p.1 == t then (t, d) else p)
  else
    fs ++ [(t, d)]

namespace TraversalDescription

/-- Modelled from the spec (§4.4): the backend `_super__relationships` — adds
or overrides the direction filter for the given type and returns a new
description. -/
def superRelationships (self : TraversalDescription) (t : RelType)
    (d : Direction) : TraversalDescription :=
  { self with relFilters := setFilter self.relFilters t.name d }

/-- From `traversal.py` lines 68-75: the pythonified `relationships` builder call —
converts a string to a `rel_type`, unpacks a `DirectionalType` into its type
and direction, then delegates to `_super__relationships`.  In Python the
`direction` parameter defaults to `Direction.ANY`; here it is always passed
explicitly. -/
def relationships (self : TraversalDescription) (reltype : RelTypeArg)
    (direction : Direction) : TraversalDescription :=
  match reltype with
  | .str s => self.superRelationships (rel_type s) direction
  | .directional dt => self.superRelationships dt.type dt.dir
  | .reltype t => self.superRelationships t direction

/-- Modelled from the spec (§4.4): the backend `_super__evaluator` — appends
to the ordered evaluator sequence and returns a new description. -/
def superEvaluator (self : TraversalDescription) (e : Evaluator) :
    TraversalDescription :=
  { self with evaluators := self.evaluators ++ [e] }

/-- From `traversal.py` lines 77-80: the pythonified `evaluator` builder call —
wraps a plain callable in a `DynamicEvaluator`, passes a conforming object
through unchanged, then delegates to `_super__evaluator`. -/
def evaluator (self : TraversalDescription) (ev : EvaluatorArg) :
    TraversalDescription :=
  match ev with
  | .callable f => self.superEvaluator (DynamicEvaluator f)
  | .evaluatorObj e => self.superEvaluator e

/-- Modelled from the spec (§4.4): the `uniqueness` builder call replaces the
policy. -/
def withUniqueness (self : TraversalDescription) (u : Uniqueness) :
    TraversalDescription :=
  { self with uniqueness := u }

/-- Modelled from the spec (§4.4): the `order` builder call replaces the
traversal order. -/
def withOrder (self : TraversalDescription) (o : TraversalOrder) :
    TraversalDescription :=
  { self with order := o }

end TraversalDescription

/-- Modelled from the spec (§4.4): the default description — empty filter
mapping (= all types, direction ANY), no evaluators, `NODE_GLOBAL`
uniqueness, breadth-first order. -/
def defaultDescription : TraversalDescription :=
  { relFilters := []
    evaluators := []
    uniqueness := .NODE_GLOBAL
    order := .BREADTH_FIRST }

/-- Modelled from the spec (§4.2): multiple evaluators are combined by
logical AND on `continue_expanding` and on `include_in_results`, in
configuration order; no evaluators means expand-and-include. -/
def evalPath (evs : List Evaluator) (p : TraversalPath) : Evaluation :=
  match evs with
  | [] => ⟨true, true⟩
  | e :: rest =>
    let r := e.evaluate p
    let acc := evalPath rest p
    ⟨r.continue_expanding && acc.continue_expanding,
     r.include_in_results && acc.include_in_results⟩

/-- Modelled from the spec (§3): a relationship passes the filter when the
mapping is empty (all types, direction ANY) or when its type is mapped and
the mapped direction matches it relative to the current node. -/
def relAllowed (fs : List (RelTypeName × Direction)) (n : NodeId)
    (r : Relationship) : Bool :=
  match fs with
  | [] => matchesDirection n r Direction.ANY
  | _ =>
    match lookupFilter fs r.reltype with
    | some d => matchesDirection n r d
    | none => false

/-- The node on the far side of a relationship incident to `n` (for a
self-loop both sides coincide). -/
def otherNode (n : NodeId) (r : Relationship) : NodeId :=
  if r.startNode == n then r.endNode else r.startNode

/-- Modelled from the spec (§4.5, §3): the per-run visited-set state of a
traverser — the frontier of partially built paths plus the global
visited-sets consulted by the global uniqueness variants. -/
structure TravState where
  frontier : List TraversalPath
  visitedNodes : List NodeId
  visitedRels : List RelId
deriving DecidableEq

/-- Modelled from the spec (§4.3): `accept(candidate, current_path)` for each
uniqueness policy — global variants consult the shared visited-set, path
variants only the ancestry of the current branch, `NONE` accepts all. -/
def uniquenessAccept (u : Uniqueness) (st : TravState) (p : TraversalPath)
    (r : Relationship) (m : NodeId) : Bool :=
  match u with
  | .NODE_GLOBAL => !(st.visitedNodes.contains m)
  | .RELATIONSHIP_GLOBAL => !(st.visitedRels.contains r.id)
  | .NODE_PATH => !(p.nodes.contains m)
  | .RELATIONSHIP_PATH => !((p.relationships.map (·.id)).contains r.id)
  | .NONE => true

/-- Modelled from the spec (§4.5): the expansion rule — one child path per
relationship incident to the path's end node that passes the
relationship/direction filter and the uniqueness policy. -/
def children (g : GraphStore) (d : TraversalDescription) (st : TravState)
    (p : TraversalPath) : List TraversalPath :=
  let n := p.endNode
  (g.rels.filter (fun r =>
      relAllowed d.relFilters n r &&
      uniquenessAccept d.uniqueness st p r (otherNode n r))).map
    (fun r => p.extend r (otherNode n r))

/-- The relationship id taken by the last step of a path, if any. -/
def lastRelId (p : TraversalPath) : Option RelId :=
  (p.steps.getLast?).map (·.rel.id)

/-- Modelled from the spec (§4.5): what one pulled path contributes to the
frontier — its children when the combined evaluation says
`continue_expanding`, nothing otherwise (pruning). -/
def expansion (g : GraphStore) (d : TraversalDescription) (st : TravState)
    (p : TraversalPath) : List TraversalPath :=
  if (evalPath d.evaluators p).continue_expanding then children g d st p
  else []

/-- Modelled from the spec (§4.5): the state after pulling path `p` off the
frontier (whose remainder is `rest`): children are enqueued at the back for
breadth-first and pushed on front for depth-first, and are recorded in the
global visited-sets. -/
def traverseStep (g : GraphStore) (d : TraversalDescription) (st : TravState)
    (p : TraversalPath) (rest : List TraversalPath) : TravState :=
  let cs := expansion g d st p
  { frontier :=
      match d.order with
      | .BREADTH_FIRST => rest ++ cs
      | .DEPTH_FIRST => cs ++ rest
    visitedNodes := st.visitedNodes ++ cs.map (·.endNode)
    visitedRels := st.visitedRels ++ cs.filterMap lastRelId }

/-- Modelled from the spec (§4.5): one bounded run of the traverser's state
machine.  Each iteration pulls one path from the frontier (FIFO for
breadth-first, LIFO for depth-first), evaluates it, expands it when
`continue_expanding` holds, and yields it when `include_in_results` holds.
`fuel` bounds the number of iterations (the engine itself may run unbounded
under `NONE` uniqueness). -/
def traverseLoop (g : GraphStore) (d : TraversalDescription) :
    Nat → TravState → List TraversalPath
  | 0, _ => []
  | fuel + 1, st =>
    match st.frontier with
    | [] => []
    | p :: rest =>
      if (evalPath d.evaluators p).include_in_results then
        p :: traverseLoop g d fuel (traverseStep g d st p rest)
      else traverseLoop g d fuel (traverseStep g d st p rest)

/-- Modelled from the spec (§4.5): a traverser bound to a start node — the
frontier is seeded with the zero-length path at the start node, whose node
is already recorded as visited. -/
def traverse (g : GraphStore) (d : TraversalDescription) (start : NodeId)
    (fuel : Nat) : List TraversalPath :=
  traverseLoop g d fuel
    { frontier := [⟨start, []⟩], visitedNodes := [start], visitedRels := [] }

/-- One builder call on a traversal description (§4.4). -/
inductive BuilderOp where
  | relationships (t : RelTypeArg) (d : Direction)
  | evaluator (e : EvaluatorArg)
  | uniqueness (u : Uniqueness)
  | order (o : TraversalOrder)

/-- The configuration produced by one builder call. -/
def applyOp (d : TraversalDescription) : BuilderOp → TraversalDescription
  | .relationships t dir => d.relationships t dir
  | .evaluator e => d.evaluator e
  | .uniqueness u => d.withUniqueness u
  | .order o => d.withOrder o

/-- A heap of traversal-description objects previously obtained by the
caller, addressed by index; makes mutation of an already-obtained
description expressible. -/
abbrev DescWorld := List TraversalDescription

/-- A builder call on the description at index `i`: the heap gains a new
object holding the reconfigured description and the call returns the new
object's index; an invalid index leaves the heap untouched. -/
def buildStep (w : DescWorld) (i : Nat) (op : BuilderOp) : DescWorld × Nat :=
  match w[i]? with
  | some d => (w ++ [applyOp d op], w.length)
  | none => (w, w.length)

/-- The observable behaviour of a traverser bound to the description object
at index `j`: the paths it yields for a given graph, start node and fuel. -/
def boundTraverserRun (w : DescWorld) (j : Nat) (g : GraphStore)
    (start : NodeId) (fuel : Nat) : Option (List TraversalPath) :=
  (w[j]?).map (fun d => traverse g d start fuel)

/-! ## The core.py surface: transactions, property containers, relationship
creation -/

/-- The operations of the wrapped Java `Transaction`. -/
inductive TxCall where
  | success
  | failure
  | finish
deriving DecidableEq

/-- Behaviour of the wrapped Java transaction: whether each operation raises
when invoked. -/
structure TxBehavior where
  successRaises : Bool
  failureRaises : Bool
  finishRaises : Bool

/-- Invoking one underlying transaction operation: the call it records and
whether it raised. -/
def runTxOp (b : TxBehavior) : TxCall → List TxCall × Bool
  | .success => ([.success], b.successRaises)
  | .failure => ([.failure], b.failureRaises)
  | .finish => ([.finish], b.finishRaises)

/-- Python `try ... finally` semantics on call traces: the finaliser's calls
always happen after the body's, whether or not the body raised; the compound
raises when either part raised. -/
def tryFinally (body finaliser : List TxCall × Bool) : List TxCall × Bool :=
  (body.1 ++ finaliser.1, body.2 || finaliser.2)

/-- From `core.py` lines 111-118: `Transaction.__exit__` — inside a `try` block,
call `failure()` when the `with`-body raised and `success()` otherwise, and
in the `finally` clause call `finish()`.  Returns the trace of underlying
calls and whether `__exit__` itself raised. -/
def transactionExit (b : TxBehavior) (exc : Bool) : List TxCall × Bool :=
  tryFinally (if exc then runTxOp b .failure else runTxOp b .success)
    (runTxOp b .finish)

/-- A Python-level error surfaced by the binding. -/
inductive PyErr where
  | keyError
  | typeError (msg : String)
deriving DecidableEq

/-- Modelled from the spec: `util.rethrow_current_exception_as` (`util.py` is
not among the reviewed sources) — re-raises whatever exception is pending as
the given Python error type, discarding the backend's own error type. -/
def rethrowAs {E α : Type} (target : PyErr) (r : Except E α) : Except PyErr α :=
  match r with
  | .ok a => .ok a
  | .error _ => .error target

/-- From `core.py` lines 78-82: `PropertyContainer.__getitem__` — try
`from_java(self.getProperty(key))`, and on any backend error rethrow as
`KeyError`. -/
def propertyGetItem {J P E : Type} (from_java : J → P)
    (getProperty : String → Except E J) (key : String) : Except PyErr P :=
  rethrowAs .keyError ((getProperty key).map from_java)

/-- From `core.py` lines 87-91: `PropertyContainer.__delitem__` — try
`self.removeProperty(key)`, and on any backend error rethrow as `KeyError`. -/
def propertyDelItem {J E : Type} (removeProperty : String → Except E J)
    (key : String) : Except PyErr J :=
  rethrowAs .keyError (removeProperty key)

/-- A relationship as held by the backing store, together with its property
mapping (property values already in their Java representation `J`). -/
structure StoredRel (J : Type) where
  id : RelId
  reltype : RelTypeName
  startNode : NodeId
  endNode : NodeId
  props : List (String × J)
deriving DecidableEq

/-- Modelled from the spec: the mutable store state relationship creation
acts on — the next fresh relationship id and the relationships created so
far. -/
structure GraphState (J : Type) where
  nextId : Nat
  createdRels : List (StoredRel J)
deriving DecidableEq

/-- Modelled from the spec: the backend `node.createRelationshipTo(other, t)`
— allocates a fresh relationship id and appends a new relationship, with no
properties yet, from `src` to `dst`. -/
def createRelationshipTo {J : Type} (g : GraphState J) (src dst : NodeId)
    (t : RelTypeName) : GraphState J × RelId :=
  ({ nextId := g.nextId + 1
     createdRels := g.createdRels ++ [⟨g.nextId, t, src, dst, []⟩] },
   g.nextId)

/-- Modelled from the spec: the backend `setProperty` on a relationship, as
reached through `PropertyContainer.__setitem__` (`core.py` lines 84-85) —
appends the key/value pair to the property mapping of every stored
relationship with that id. -/
def setRelProperty {J : Type} (g : GraphState J) (rid : RelId) (key : String)
    (val : J) : GraphState J :=
  { g with
    createdRels := g.createdRels.map (fun r =>
      if r.id = rid then { r with props := r.props ++ [(key, val)] } else r) }

/-- From `core.py` lines 167-168: the first loop of `create` —
`for other in nodes: rels.append(node.createRelationshipTo(other, t))`;
returns the state after all creations and the created ids in order. -/
def createAll {J : Type} (g : GraphState J) (src : NodeId) (t : RelTypeName) :
    List NodeId → GraphState J × List RelId
  | [] => (g, [])
  | other :: rest =>
    let gr := createRelationshipTo g src other t
    let grs := createAll gr.1 src t rest
    (grs.1, gr.2 :: grs.2)

/-- From `core.py` lines 170-171: the inner loop of `create` — setting every
keyword property on one created relationship, converting each value with
`to_java` (via `__setitem__`). -/
def setProps {V J : Type} (to_java : V → J) (g : GraphState J) (rid : RelId) :
    List (String × V) → GraphState J
  | [] => g
  | (k, v) :: rest => setProps to_java (setRelProperty g rid k (to_java v)) rid rest

/-- From `core.py` lines 169-171: the second loop of `create` —
`for rel in rels: for key, val in properties.items(): rel[key] = val`. -/
def setAllProps {V J : Type} (to_java : V → J) (g : GraphState J)
    (properties : List (String × V)) : List RelId → GraphState J
  | [] => g
  | rid :: rest => setAllProps to_java (setProps to_java g rid properties) properties rest

/-- The `t` argument of `create`: a string (converted with `rel_type`) or an
already-built relationship type (`core.py` lines 164-165). -/
inductive RelTypeSpec where
  | str (s : String)
  | reltype (t : RelType)
deriving DecidableEq

/-- From `core.py` lines 164-165: `if type(t) in strings: t = rel_type(t)`. -/
def RelTypeSpec.resolve : RelTypeSpec → RelType
  | .str s => rel_type s
  | .reltype t => t

/-- What `create` returns: the single relationship when exactly one was
created, the list of all of them otherwise (`core.py` lines 172-173). -/
inductive CreateResult where
  | single (rid : RelId)
  | multiple (rids : List RelId)
deriving DecidableEq

/-- From `core.py` lines 159-173: `NodeRelationships.create` — raises `TypeError`
when no target node is given (before touching the store), otherwise creates
one relationship per target node in argument order, then sets every keyword
property on each created relationship, and returns the single relationship
for one target or the list of all created relationships otherwise. -/
def NodeRelationships_create {V J : Type} (to_java : V → J) (g : GraphState J)
    (node : NodeId) (t : RelTypeSpec) (nodes : List NodeId)
    (properties : List (String × V)) : GraphState J × Except PyErr CreateResult :=
  match nodes with
  | [] => (g, .error (.typeError "No target node specified"))
  | _ =>
    let tr := t.resolve
    let g1rids := createAll g node tr.name nodes
    let g2 := setAllProps to_java g1rids.1 properties g1rids.2
    match g1rids.2 with
    | [rid] => (g2, .ok (.single rid))
    | _ => (g2, .ok (.multiple g1rids.2))

/-- The relationships `create` is specified to add: one per target node in
argument order, ids counting up from `base`, each from `src` under type `t`
and carrying the full property mapping `props`. -/
def freshRels {J : Type} (t : RelTypeName) (src : NodeId)
    (props : List (String × J)) (base : Nat) : List NodeId → List (StoredRel J)
  | [] => []
  | o :: os => ⟨base, t, src, o, props⟩ :: freshRels t src props (base + 1) os

/-- The breadth-first queue invariant: non-decreasing lengths, all within one
of each other. -/
def frontierInv (q : List TraversalPath) : Prop :=
  q.Pairwise (fun a b => a.length ≤ b.length) ∧
  ∀ a ∈ q, ∀ b ∈ q, a.length ≤ b.length + 1

/-! ## Concrete instances used by the witnesses -/

/-- The spec's star graph (§8): center node 0 with leaves 1, 2, 3 connected
by outgoing `KNOWS` relationships. -/
def starGraph : GraphStore :=
  ⟨[⟨0, "KNOWS", 0, 1⟩, ⟨1, "KNOWS", 0, 2⟩, ⟨2, "KNOWS", 0, 3⟩]⟩

/-- Result of `relationships("KNOWS", OUTGOING)` on the default description. -/
def starDescription : TraversalDescription :=
  defaultDescription.relationships (.str "KNOWS") .OUTGOING

/-- The same description switched to depth-first order. -/
def starDescriptionDFS : TraversalDescription :=
  starDescription.withOrder .DEPTH_FIRST

/-- Example backend property reader: key "a" is stored, everything else
raises a backend error. -/
def exGetProperty : String → Except String Nat :=
  fun k => if k = "a" then .ok 3 else .error "NotFoundException"

/-- Example backend property remover that always raises. -/
def exRemoveProperty : String → Except String Unit :=
  fun _ => .error "NotFoundException"

/-- Example `from_java` conversion. -/
def exFromJava : Nat → Nat := fun n => n + 1

/-! ## Basic path lemmas -/

theorem nodes_length (p : TraversalPath) :
    p.nodes.length = p.length + 1 := by
  simp [TraversalPath.nodes, TraversalPath.length]

theorem relationships_length (p : TraversalPath) :
    p.relationships.length = p.length := by
  simp [TraversalPath.relationships, TraversalPath.length]

/-! ## Lemmas about the filter mapping -/

theorem lookupFilter_cons_true {p : RelTypeName × Direction}
    {rest : List (RelTypeName × Direction)} {t : RelTypeName}
    (hp : (p.1 == t) = true) :
    lookupFilter (p :: rest) t = some p.2 := by
  simp [lookupFilter, List.find?_cons, hp]

theorem lookupFilter_cons_false {p : RelTypeName × Direction}
    {rest : List (RelTypeName × Direction)} {t : RelTypeName}
    (hp : (p.1 == t) = false) :
    lookupFilter (p :: rest) t = lookupFilter rest t := by
  simp [lookupFilter, List.find?_cons, hp]

theorem lookupFilter_map_override (t : RelTypeName) (d : Direction)
    (fs : List (RelTypeName × Direction))
    (h : fs.any (fun p => p.1 == t) = true) :
    lookupFilter (fs.map (fun p => if p.1 == t then (t, d) else p)) t = some d := by
  induction fs with
  | nil => simp at h
  | cons p rest ih =>
    rw [List.map_cons]
    by_cases hp : (p.1 == t) = true
    · rw [if_pos hp]
      exact lookupFilter_cons_true (by simp)
    · rw [if_neg hp, lookupFilter_cons_false (by simpa using hp)]
      exact ih (by simpa [hp] using h)

theorem lookupFilter_append_new (t : RelTypeName) (d : Direction)
    (fs : List (RelTypeName × Direction))
    (h : ¬ fs.any (fun p => p.1 == t) = true) :
    lookupFilter (fs ++ [(t, d)]) t = some d := by
  induction fs with
  | nil => exact lookupFilter_cons_true (by simp)
  | cons p rest ih =>
    have hp : (p.1 == t) = false := by
      by_cases hc : (p.1 == t) = true
      · exact absurd (by simp [hc]) h
      · simpa using hc
    rw [List.cons_append, lookupFilter_cons_false hp]
    exact ih (fun hc => h (by simp [hc]))

theorem lookupFilter_setFilter_self (fs : List (RelTypeName × Direction))
    (t : RelTypeName) (d : Direction) :
    lookupFilter (setFilter fs t d) t = some d := by
  unfold setFilter
  split
  · exact lookupFilter_map_override t d fs (by assumption)
  · exact lookupFilter_append_new t d fs (by assumption)

theorem lookupFilter_map_ne {t s : RelTypeName} (d : Direction) (h : s ≠ t)
    (fs : List (RelTypeName × Direction)) :
    lookupFilter (fs.map (fun p => if p.1 == t then (t, d) else p)) s =
      lookupFilter fs s := by
  induction fs with
  | nil => rfl
  | cons p rest ih =>
    rw [List.map_cons]
    by_cases hp : (p.1 == t) = true
    · have hpt : p.1 = t := by simpa using hp
      have hts : ((t, d).1 == s) = false := by
        rw [beq_eq_false_iff_ne]; exact fun hc => h hc.symm
      have hps : (p.1 == s) = false := by
        rw [beq_eq_false_iff_ne, hpt]; exact fun hc => h hc.symm
      rw [if_pos hp, lookupFilter_cons_false hts, lookupFilter_cons_false hps, ih]
    · rw [if_neg hp]
      by_cases hps : (p.1 == s) = true
      · rw [lookupFilter_cons_true hps, lookupFilter_cons_true hps]
      · have hf : (p.1 == s) = false := by simpa using hps
        rw [lookupFilter_cons_false hf, lookupFilter_cons_false hf, ih]

theorem lookupFilter_append_ne {t s : RelTypeName} (d : Direction) (h : s ≠ t)
    (fs : List (RelTypeName × Direction)) :
    lookupFilter (fs ++ [(t, d)]) s = lookupFilter fs s := by
  have hts : ((t, d).1 == s) = false := by
    rw [beq_eq_false_iff_ne]; exact fun hc => h hc.symm
  induction fs with
  | nil => exact lookupFilter_cons_false hts
  | cons p rest ih =>
    rw [List.cons_append]
    by_cases hps : (p.1 == s) = true
    · rw [lookupFilter_cons_true hps, lookupFilter_cons_true hps]
    · have hf : (p.1 == s) = false := by simpa using hps
      rw [lookupFilter_cons_false hf, lookupFilter_cons_false hf, ih]

theorem lookupFilter_setFilter_ne (fs : List (RelTypeName × Direction))
    {t s : RelTypeName} (d : Direction) (h : s ≠ t) :
    lookupFilter (setFilter fs t d) s = lookupFilter fs s := by
  unfold setFilter
  split
  · exact lookupFilter_map_ne d h fs
  · exact lookupFilter_append_ne d h fs

/-! ## The claims -/

/-- C4: `relationships(type, direction)` adds or overrides the direction
filter for that type — a repeated call for the same type replaces the prior
direction, and a call for a different type accumulates: it sets the new
type's entry and leaves the first type's entry as configured. -/
theorem C4_relationships_replace_accumulate (desc : TraversalDescription)
    (t t' : RelType) (d1 d2 d' : Direction) (hne : t'.name ≠ t.name) :
    lookupFilter ((desc.relationships (.reltype t) d1).relationships
        (.reltype t) d2).relFilters t.name = some d2 ∧
    lookupFilter (desc.relationships (.reltype t) d1).relFilters t.name
      = some d1 ∧
    lookupFilter ((desc.relationships (.reltype t) d1).relationships
        (.reltype t') d').relFilters t'.name = some d' ∧
    lookupFilter ((desc.relationships (.reltype t) d1).relationships
        (.reltype t') d').relFilters t.name = some d1 := by
  refine ⟨?_, ?_, ?_, ?_⟩
  · exact lookupFilter_setFilter_self _ _ _
  · exact lookupFilter_setFilter_self _ _ _
  · exact lookupFilter_setFilter_self _ _ _
  · rw [TraversalDescription.relationships, TraversalDescription.superRelationships]
    rw [lookupFilter_setFilter_ne _ _ (fun hc => hne hc.symm)]
    exact lookupFilter_setFilter_self _ _ _

/-- Witness for C4 at concrete types `KNOWS`/`LIKES` on the default
description. -/
theorem C4_relationships_replace_accumulate_witness :
    (rel_type "LIKES").name ≠ (rel_type "KNOWS").name ∧
    lookupFilter ((defaultDescription.relationships (.reltype (rel_type "KNOWS"))
        .OUTGOING).relationships (.reltype (rel_type "KNOWS"))
        .INCOMING).relFilters "KNOWS" = some .INCOMING := by
  refine ⟨by decide, ?_⟩
  exact (C4_relationships_replace_accumulate defaultDescription
    (rel_type "KNOWS") (rel_type "LIKES") .OUTGOING .INCOMING .BOTH
    (by decide)).1

/-- C5: passing a plain callable `f` to the `evaluator` builder call appends
a `DynamicEvaluator` wrapping it to the ordered evaluator sequence, and the
wrapper's `evaluate(path)` returns exactly `f(path)`; an object already
conforming to the `Evaluator` interface is appended unchanged. -/
theorem C5_evaluator_wraps_callable (desc : TraversalDescription)
    (f : TraversalPath → Evaluation) (e : Evaluator) (path : TraversalPath) :
    (desc.evaluator (.callable f)).evaluators
      = desc.evaluators ++ [DynamicEvaluator f] ∧
    (DynamicEvaluator f).evaluate path = f path ∧
    (desc.evaluator (.evaluatorObj e)).evaluators = desc.evaluators ++ [e] :=
  ⟨rfl, rfl, rfl⟩

/-- C6: on a zero-length path `start` equals `end` and `last_relationship`
returns the none-marker; on a path of positive length `last_relationship`
returns the final relationship of the relationship sequence. -/
theorem C6_last_relationship_none_marker (p : TraversalPath) :
    (p.length = 0 → p.start = p.endNode ∧ p.last_relationship = none) ∧
    (0 < p.length →
      p.last_relationship = p.relationships.getLast? ∧
      p.last_relationship.isSome = true) := by
  constructor
  · intro h
    have hnil : p.steps = [] := List.length_eq_zero.mp h
    constructor
    · simp [TraversalPath.start, TraversalPath.endNode, hnil]
    · simp [TraversalPath.last_relationship, hnil]
  · intro h
    have hne : p.steps ≠ [] := by
      intro hn
      rw [TraversalPath.length, hn] at h
      exact absurd h (by simp)
    constructor
    · simp [TraversalPath.last_relationship, TraversalPath.relationships,
        List.getLast?_map]
    · rw [TraversalPath.last_relationship]
      simp [List.getLast?_isSome, hne]

/-- Witness for C6: a single-node path and a one-step path. -/
theorem C6_last_relationship_none_marker_witness :
    ((⟨7, []⟩ : TraversalPath).start = (⟨7, []⟩ : TraversalPath).endNode ∧
      (⟨7, []⟩ : TraversalPath).last_relationship = none) ∧
    (⟨0, [⟨⟨5, "R", 0, 1⟩, 1⟩]⟩ : TraversalPath).last_relationship
      = (⟨0, [⟨⟨5, "R", 0, 1⟩, 1⟩]⟩ : TraversalPath).relationships.getLast? := by
  refine ⟨(C6_last_relationship_none_marker ⟨7, []⟩).1 rfl, ?_⟩
  exact ((C6_last_relationship_none_marker ⟨0, [⟨⟨5, "R", 0, 1⟩, 1⟩]⟩).2
    (by decide)).1

/-- C7: the exported constants `ANY` and `BOTH` denote the identical
direction value, filtering incident relationships by `ANY` and by `BOTH`
gives the same sequence, and `BOTH` matches a relationship exactly when it
is outgoing from or incoming to the node under consideration. -/
theorem C7_any_equals_both :
    Direction.ANY = Direction.BOTH ∧
    (∀ (g : GraphStore) (n : NodeId),
      incidentRels g n Direction.ANY = incidentRels g n Direction.BOTH) ∧
    (∀ (n : NodeId) (r : Relationship),
      matchesDirection n r Direction.BOTH =
        (matchesDirection n r Direction.OUTGOING ||
         matchesDirection n r Direction.INCOMING)) :=
  ⟨rfl, fun _ _ => rfl, fun _ _ => rfl⟩

/-- C8: leaving a `Transaction` context calls `failure()` when the body
raised and `success()` otherwise, and calls `finish()` afterwards in every
case — also when the underlying `success`/`failure` call itself raises,
since `b` ranges over all raising behaviours. -/
theorem C8_transaction_exit_protocol (b : TxBehavior) (exc : Bool) :
    (transactionExit b exc).1 =
      (if exc then [TxCall.failure] else [TxCall.success]) ++ [TxCall.finish] := by
  cases exc <;> rfl

/-- C9: a failing backend `getProperty`/`removeProperty` surfaces as
`KeyError` at the Python interface, never as the backend's own error type,
and a successful read returns the stored value converted with `from_java`. -/
theorem C9_property_access_keyerror {J P E : Type} (from_java : J → P)
    (getProperty : String → Except E J)
    (removeProperty : String → Except E Unit) (key : String) :
    (∀ e, getProperty key = .error e →
      propertyGetItem from_java getProperty key = .error .keyError) ∧
    (∀ v, getProperty key = .ok v →
      propertyGetItem from_java getProperty key = .ok (from_java v)) ∧
    (∀ e, removeProperty key = .error e →
      propertyDelItem removeProperty key = .error .keyError) := by
  refine ⟨fun e he => ?_, fun v hv => ?_, fun e he => ?_⟩
  · simp [propertyGetItem, rethrowAs, he, Except.map]
  · simp [propertyGetItem, rethrowAs, hv, Except.map]
  · simp [propertyDelItem, rethrowAs, he]

/-- Witness for C9 on the example backend: missing key "b" reads as
`KeyError`, stored key "a" reads back converted, failing removal is a
`KeyError`. -/
theorem C9_property_access_keyerror_witness :
    propertyGetItem exFromJava exGetProperty "b" = .error .keyError ∧
    propertyGetItem exFromJava exGetProperty "a" = .ok 4 ∧
    propertyDelItem exRemoveProperty "a" = .error .keyError := by
  refine ⟨?_, ?_, ?_⟩
  · exact (C9_property_access_keyerror exFromJava exGetProperty
      exRemoveProperty "b").1 "NotFoundException" rfl
  · exact (C9_property_access_keyerror exFromJava exGetProperty
      exRemoveProperty "a").2.1 3 rfl
  · exact (C9_property_access_keyerror exFromJava exGetProperty
      exRemoveProperty "a").2.2 "NotFoundException" rfl

/-- C2: a builder call on a previously obtained description returns a new
description object at a fresh index holding the reconfigured description,
and leaves every previously obtained description — and the observable
behaviour of every traverser bound to one — unchanged. -/
theorem C2_builder_never_mutates (w : DescWorld) (i j : Nat) (op : BuilderOp)
    (d : TraversalDescription) (hj : j < w.length) (hi : w[i]? = some d) :
    ((buildStep w i op).1)[j]? = w[j]? ∧
    (∀ (g : GraphStore) (s : NodeId) (fuel : Nat),
      boundTraverserRun (buildStep w i op).1 j g s fuel
        = boundTraverserRun w j g s fuel) ∧
    (buildStep w i op).2 = w.length ∧
    ((buildStep w i op).1)[w.length]? = some (applyOp d op) := by
  have hb : buildStep w i op = (w ++ [applyOp d op], w.length) := by
    rw [buildStep, hi]
  rw [hb]
  have hget : (w ++ [applyOp d op])[j]? = w[j]? := by
    rw [List.getElem?_append]
    exact if_pos hj
  refine ⟨hget, ?_, rfl, ?_⟩
  · intro g s fuel
    rw [boundTraverserRun, boundTraverserRun, hget]
  · exact List.getElem?_concat_length w (applyOp d op)

/-- Witness for C2: reconfiguring the description at index 0 of a one-element
heap leaves that description and a traverser bound to it unchanged. -/
theorem C2_builder_never_mutates_witness :
    ((buildStep [defaultDescription] 0 (.uniqueness .NONE)).1)[0]?
      = ([defaultDescription] : DescWorld)[0]? ∧
    boundTraverserRun (buildStep [defaultDescription] 0 (.uniqueness .NONE)).1
        0 starGraph 0 3
      = boundTraverserRun [defaultDescription] 0 starGraph 0 3 := by
  have h := C2_builder_never_mutates [defaultDescription] 0 0
    (.uniqueness .NONE) defaultDescription (by decide) rfl
  exact ⟨h.1, h.2.1 starGraph 0 3⟩

/-- C1: every path produced by a traversal run has `len(path)` equal to
`path.length()`, a node sequence of exactly length + 1 nodes, and a
relationship sequence of exactly `length` relationships. -/
theorem C1_path_length_invariant (g : GraphStore) (d : TraversalDescription)
    (s : NodeId) (fuel : Nat) (p : TraversalPath)
    (hp : p ∈ traverse g d s fuel) :
    p.pyLen = p.length ∧
    p.nodes.length = p.length + 1 ∧
    p.relationships.length = p.length :=
  ⟨rfl, nodes_length p, relationships_length p⟩

/-- Witness for C1: the zero-length path produced by the star-graph run. -/
theorem C1_path_length_invariant_witness :
    (⟨0, []⟩ : TraversalPath) ∈ traverse starGraph starDescription 0 5 ∧
    ((⟨0, []⟩ : TraversalPath).pyLen = (⟨0, []⟩ : TraversalPath).length ∧
      (⟨0, []⟩ : TraversalPath).nodes.length
        = (⟨0, []⟩ : TraversalPath).length + 1 ∧
      (⟨0, []⟩ : TraversalPath).relationships.length
        = (⟨0, []⟩ : TraversalPath).length) :=
  ⟨by decide,
   C1_path_length_invariant starGraph starDescription 0 5 ⟨0, []⟩ (by decide)⟩

/-! ## Order of yielded paths (C3) -/

theorem mem_children_length {g : GraphStore} {d : TraversalDescription}
    {st : TravState} {p c : TraversalPath} (hc : c ∈ children g d st p) :
    c.length = p.length + 1 := by
  simp only [children, List.mem_map] at hc
  obtain ⟨r, _, rfl⟩ := hc
  simp [TraversalPath.extend, TraversalPath.length]

theorem mem_children_startNode {g : GraphStore} {d : TraversalDescription}
    {st : TravState} {p c : TraversalPath} (hc : c ∈ children g d st p) :
    c.startNode = p.startNode := by
  simp only [children, List.mem_map] at hc
  obtain ⟨r, _, rfl⟩ := hc
  simp [TraversalPath.extend]

theorem mem_expansion_length {g : GraphStore} {d : TraversalDescription}
    {st : TravState} {p c : TraversalPath} (hc : c ∈ expansion g d st p) :
    c.length = p.length + 1 := by
  rw [expansion] at hc
  split at hc
  · exact mem_children_length hc
  · exact absurd hc (by simp)

theorem mem_expansion_startNode {g : GraphStore} {d : TraversalDescription}
    {st : TravState} {p c : TraversalPath} (hc : c ∈ expansion g d st p) :
    c.startNode = p.startNode := by
  rw [expansion] at hc
  split at hc
  · exact mem_children_startNode hc
  · exact absurd hc (by simp)

theorem traverseStep_frontier_mem {g : GraphStore} {d : TraversalDescription}
    {st : TravState} {p a : TraversalPath} {rest : List TraversalPath}
    (ha : a ∈ (traverseStep g d st p rest).frontier) :
    a ∈ rest ∨ a ∈ expansion g d st p := by
  rw [traverseStep] at ha
  rcases hord : d.order with _ | _ <;> rw [hord] at ha <;>
    simp only [] at ha <;> rcases List.mem_append.mp ha with h | h <;> tauto

theorem traverseStep_frontier_bfs {g : GraphStore} {d : TraversalDescription}
    {st : TravState} {p : TraversalPath} {rest : List TraversalPath}
    (hord : d.order = .BREADTH_FIRST) :
    (traverseStep g d st p rest).frontier = rest ++ expansion g d st p := by
  rw [traverseStep, hord]

theorem traverseLoop_succ_cons {g : GraphStore} {d : TraversalDescription}
    {st : TravState} {p : TraversalPath} {rest : List TraversalPath}
    {n : Nat} (hfr : st.frontier = p :: rest) :
    traverseLoop g d (n + 1) st =
      if (evalPath d.evaluators p).include_in_results then
        p :: traverseLoop g d n (traverseStep g d st p rest)
      else traverseLoop g d n (traverseStep g d st p rest) := by
  rw [traverseLoop, hfr]

theorem traverseLoop_length_lb (g : GraphStore) (d : TraversalDescription)
    (c : Nat) :
    ∀ (fuel : Nat) (st : TravState),
      (∀ a ∈ st.frontier, c ≤ a.length) →
      ∀ y ∈ traverseLoop g d fuel st, c ≤ y.length := by
  intro fuel
  induction fuel with
  | zero => intro st _ y hy; simp [traverseLoop] at hy
  | succ n ih =>
    intro st h y hy
    cases hfr : st.frontier with
    | nil => rw [traverseLoop, hfr] at hy; simp at hy
    | cons p rest =>
      rw [traverseLoop_succ_cons hfr] at hy
      have hp : c ≤ p.length := h p (by rw [hfr]; exact List.mem_cons_self p rest)
      have hst' : ∀ a ∈ (traverseStep g d st p rest).frontier, c ≤ a.length := by
        intro a ha
        rcases traverseStep_frontier_mem ha with ha | ha
        · exact h a (by rw [hfr]; exact List.mem_cons_of_mem p ha)
        · have := mem_expansion_length ha
          omega
      split at hy
      · rcases List.mem_cons.mp hy with rfl | hy
        · exact hp
        · exact ih _ hst' y hy
      · exact ih _ hst' y hy

theorem traverseLoop_startNode (g : GraphStore) (d : TraversalDescription)
    (s : NodeId) :
    ∀ (fuel : Nat) (st : TravState),
      (∀ a ∈ st.frontier, a.startNode = s) →
      ∀ y ∈ traverseLoop g d fuel st, y.startNode = s := by
  intro fuel
  induction fuel with
  | zero => intro st _ y hy; simp [traverseLoop] at hy
  | succ n ih =>
    intro st h y hy
    cases hfr : st.frontier with
    | nil => rw [traverseLoop, hfr] at hy; simp at hy
    | cons p rest =>
      rw [traverseLoop_succ_cons hfr] at hy
      have hp : p.startNode = s := h p (by rw [hfr]; exact List.mem_cons_self p rest)
      have hst' : ∀ a ∈ (traverseStep g d st p rest).frontier, a.startNode = s := by
        intro a ha
        rcases traverseStep_frontier_mem ha with ha | ha
        · exact h a (by rw [hfr]; exact List.mem_cons_of_mem p ha)
        · exact (mem_expansion_startNode ha).trans hp
      split at hy
      · rcases List.mem_cons.mp hy with rfl | hy
        · exact hp
        · exact ih _ hst' y hy
      · exact ih _ hst' y hy

theorem traverseLoop_sorted (g : GraphStore) (d : TraversalDescription)
    (hord : d.order = .BREADTH_FIRST) :
    ∀ (fuel : Nat) (st : TravState), frontierInv st.frontier →
      List.Sorted (· ≤ ·) ((traverseLoop g d fuel st).map TraversalPath.length) := by
  intro fuel
  induction fuel with
  | zero => intro st _; simp [traverseLoop]
  | succ n ih =>
    intro st hinv
    cases hfr : st.frontier with
    | nil => rw [traverseLoop, hfr]; simp
    | cons p rest =>
      rw [traverseLoop_succ_cons hfr]
      rw [hfr] at hinv
      obtain ⟨hpair, hspread⟩ := hinv
      rw [List.pairwise_cons] at hpair
      obtain ⟨hple, hrpair⟩ := hpair
      have hcs_len : ∀ a ∈ expansion g d st p, a.length = p.length + 1 :=
        fun a ha => mem_expansion_length ha
      have hfr' : (traverseStep g d st p rest).frontier
          = rest ++ expansion g d st p := traverseStep_frontier_bfs hord
      have hinv' : frontierInv (traverseStep g d st p rest).frontier := by
        rw [hfr']
        constructor
        · rw [List.pairwise_append]
          refine ⟨hrpair, ?_, ?_⟩
          · apply List.pairwise_of_forall_mem_list
            intro a ha b hb
            rw [hcs_len a ha, hcs_len b hb]
          · intro a ha b hb
            have h1 : a.length ≤ p.length + 1 :=
              hspread a (List.mem_cons_of_mem p ha) p (List.mem_cons_self p rest)
            rw [hcs_len b hb]
            exact h1
        · intro a ha b hb
          rcases List.mem_append.mp ha with ha | ha <;>
            rcases List.mem_append.mp hb with hb | hb
          · exact hspread a (List.mem_cons_of_mem p ha)
              b (List.mem_cons_of_mem p hb)
          · have h1 := hspread a (List.mem_cons_of_mem p ha)
              p (List.mem_cons_self p rest)
            have h2 := hcs_len b hb
            omega
          · have h1 := hcs_len a ha
            have h2 := hple b hb
            omega
          · have h1 := hcs_len a ha
            have h2 := hcs_len b hb
            omega
      have hlb : ∀ a ∈ (traverseStep g d st p rest).frontier,
          p.length ≤ a.length := by
        rw [hfr']
        intro a ha
        rcases List.mem_append.mp ha with ha | ha
        · exact hple a ha
        · rw [hcs_len a ha]; omega
      have hsorted' := ih _ hinv'
      have houtlb := traverseLoop_length_lb g d p.length n _ hlb
      split
      · rw [List.map_cons, List.sorted_cons]
        refine ⟨?_, hsorted'⟩
        intro b hb
        rw [List.mem_map] at hb
        obtain ⟨y, hy, rfl⟩ := hb
        exact houtlb y hy
      · exact hsorted'

/-- C3: a breadth-first traversal yields its paths in non-decreasing order of
length; in a depth-first traversal, a first yielded path of length 0 is
followed by a path extending it (same start node, its step sequence an
initial segment), not by a sibling. -/
theorem C3_traversal_order (g : GraphStore) (d : TraversalDescription)
    (s : NodeId) (fuel : Nat) :
    (d.order = .BREADTH_FIRST →
      List.Sorted (· ≤ ·) ((traverse g d s fuel).map TraversalPath.length)) ∧
    (d.order = .DEPTH_FIRST →
      ∀ p0 p1 rem, traverse g d s fuel = p0 :: p1 :: rem →
        p0.length = 0 → p0.Extends p1) := by
  constructor
  · intro hord
    apply traverseLoop_sorted g d hord
    constructor
    · simp
    · intro a ha b hb
      rw [List.mem_singleton] at ha hb
      subst ha; subst hb
      omega
  · intro _ p0 p1 rem heq h0
    have hstart : ∀ y ∈ traverse g d s fuel, y.startNode = s := by
      apply traverseLoop_startNode
      intro a ha
      rw [List.mem_singleton] at ha
      rw [ha]
    have h0m : p0 ∈ traverse g d s fuel := by
      rw [heq]; exact List.mem_cons_self _ _
    have h1m : p1 ∈ traverse g d s fuel := by
      rw [heq]; exact List.mem_cons_of_mem _ (List.mem_cons_self _ _)
    have hsteps : p0.steps = [] := List.length_eq_zero.mp h0
    exact ⟨(hstart p1 h1m).trans (hstart p0 h0m).symm, p1.steps,
      by rw [hsteps]; rfl⟩

/-! ## Relationship creation (C10) -/

theorem createAll_spec {J : Type} (src : NodeId) (t : RelTypeName) :
    ∀ (os : List NodeId) (g : GraphState J),
      createAll g src t os =
        ({ nextId := g.nextId + os.length
           createdRels := g.createdRels ++ freshRels t src [] g.nextId os },
         List.range' g.nextId os.length) := by
  intro os
  induction os with
  | nil =>
    intro g
    simp [createAll, freshRels]
  | cons o rest ih =>
    intro g
    rw [createAll]
    simp only [createRelationshipTo]
    rw [ih]
    simp only [freshRels, List.length_cons, List.range'_succ]
    refine Prod.ext ?_ rfl
    simp [List.append_assoc]
    omega

theorem map_setprop_skip {J : Type} (rid : RelId) (extra : List (String × J))
    (l : List (StoredRel J)) (h : ∀ r ∈ l, ¬ r.id = rid) :
    l.map (fun r =>
      if r.id = rid then { r with props := r.props ++ extra } else r) = l := by
  calc l.map (fun r =>
          if r.id = rid then { r with props := r.props ++ extra } else r)
      = l.map id := List.map_congr_left (fun r hr => if_neg (h r hr))
    _ = l := List.map_id l

theorem setProps_spec {V J : Type} (to_java : V → J) (rid : RelId) :
    ∀ (kvs : List (String × V)) (g : GraphState J),
      setProps to_java g rid kvs =
        { g with createdRels := g.createdRels.map (fun r =>
            if r.id = rid then
              { r with
                props := r.props ++ kvs.map (fun kv => (kv.1, to_java kv.2)) }
            else r) } := by
  intro kvs
  induction kvs with
  | nil =>
    intro g
    rw [setProps]
    have hid : ∀ r : StoredRel J,
        (if r.id = rid then
          { r with props := r.props ++
              List.map (fun kv => (kv.1, to_java kv.2)) ([] : List (String × V)) }
         else r) = r := by
      intro r
      split <;> simp
    simp [hid]
  | cons kv rest ih =>
    obtain ⟨k, v⟩ := kv
    intro g
    rw [setProps, ih]
    simp only [setRelProperty, List.map_map]
    congr 1
    apply List.map_congr_left
    intro r _
    by_cases hr : r.id = rid
    · simp [Function.comp, hr]
    · simp [Function.comp, hr]

theorem freshRels_id_ge {J : Type} (t : RelTypeName) (src : NodeId)
    (props : List (String × J)) :
    ∀ (os : List NodeId) (base : Nat) (r : StoredRel J),
      r ∈ freshRels t src props base os → base ≤ r.id := by
  intro os
  induction os with
  | nil => intro base r hr; simp [freshRels] at hr
  | cons o rest ih =>
    intro base r hr
    rw [freshRels] at hr
    rcases List.mem_cons.mp hr with rfl | hr
    · simp
    · have := ih (base + 1) r hr
      omega

theorem setAllProps_spec {V J : Type} (to_java : V → J) (t : RelTypeName)
    (src : NodeId) (properties : List (String × V)) :
    ∀ (os : List NodeId) (b : Nat) (pre : List (StoredRel J))
      (g : GraphState J),
      g.createdRels = pre ++ freshRels t src [] b os →
      (∀ r ∈ pre, r.id < b) →
      (setAllProps to_java g properties (List.range' b os.length)).createdRels
        = pre ++ freshRels t src
            (properties.map (fun kv => (kv.1, to_java kv.2))) b os := by
  intro os
  induction os with
  | nil =>
    intro b pre g hg hpre
    rw [freshRels] at hg
    simp only [List.length_nil, freshRels]
    rw [show List.range' b 0 = [] from rfl, setAllProps, hg]
  | cons o rest ih =>
    intro b pre g hg hpre
    rw [freshRels] at hg
    simp only [List.length_cons, List.range'_succ, freshRels]
    rw [setAllProps, setProps_spec]
    have hmap : (setProps to_java g b properties).createdRels =
        (pre ++ [⟨b, t, src, o,
            properties.map (fun kv => (kv.1, to_java kv.2))⟩])
          ++ freshRels t src [] (b + 1) rest := by
      rw [setProps_spec, hg]
      rw [List.map_append, List.map_cons]
      rw [map_setprop_skip b _ pre (fun r hr => Nat.ne_of_lt (hpre r hr))]
      rw [map_setprop_skip b _ (freshRels t src [] (b + 1) rest)
        (fun r hr => Nat.ne_of_gt (freshRels_id_ge t src [] rest (b + 1) r hr))]
      simp
    have := ih (b + 1)
      (pre ++ [⟨b, t, src, o, properties.map (fun kv => (kv.1, to_java kv.2))⟩])
      (setProps to_java g b properties) hmap ?hpre'
    case hpre' =>
      intro r hr
      rcases List.mem_append.mp hr with hr | hr
      · exact Nat.lt_succ_of_lt (hpre r hr)
      · rw [List.mem_singleton.mp hr]
        exact Nat.lt_succ_self b
    rw [setProps_spec] at this
    rw [this]
    simp

/-- C10: `create` with no target node raises `TypeError` and leaves the
store untouched; with `n ≥ 1` target nodes it creates exactly one
relationship per target node in argument order (fresh ids counting up from
`nextId`), sets every given keyword property (converted with `to_java`) on
each created relationship, and returns the single relationship when `n = 1`
and the list of all created relationships otherwise. -/
theorem C10_create_contract {V J : Type} (to_java : V → J) (g : GraphState J)
    (node : NodeId) (t : RelTypeSpec) (nodes : List NodeId)
    (properties : List (String × V))
    (hwf : ∀ r ∈ g.createdRels, r.id < g.nextId) :
    (nodes = [] →
      NodeRelationships_create to_java g node t nodes properties
        = (g, .error (.typeError "No target node specified"))) ∧
    (nodes ≠ [] →
      (NodeRelationships_create to_java g node t nodes properties).1.createdRels
        = g.createdRels ++ freshRels t.resolve.name node
            (properties.map (fun kv => (kv.1, to_java kv.2))) g.nextId nodes ∧
      (nodes.length = 1 →
        (NodeRelationships_create to_java g node t nodes properties).2
          = .ok (.single g.nextId)) ∧
      (2 ≤ nodes.length →
        (NodeRelationships_create to_java g node t nodes properties).2
          = .ok (.multiple (List.range' g.nextId nodes.length)))) := by
  constructor
  · intro h
    subst h
    rfl
  · intro hne
    obtain ⟨o, os, rfl⟩ := List.exists_cons_of_ne_nil hne
    have hca := createAll_spec node t.resolve.name (o :: os) g
    have hg1 : (createAll g node t.resolve.name (o :: os)).1.createdRels
        = g.createdRels ++ freshRels t.resolve.name node [] g.nextId (o :: os) := by
      rw [hca]
    have hids : (createAll g node t.resolve.name (o :: os)).2
        = List.range' g.nextId (o :: os).length := by
      rw [hca]
    have hsa := setAllProps_spec to_java t.resolve.name node properties
      (o :: os) g.nextId g.createdRels
      (createAll g node t.resolve.name (o :: os)).1 hg1 hwf
    have hfst : (NodeRelationships_create to_java g node t (o :: os)
        properties).1
        = setAllProps to_java (createAll g node t.resolve.name (o :: os)).1
            properties (createAll g node t.resolve.name (o :: os)).2 := by
      simp only [NodeRelationships_create]
      split <;> rfl
    refine ⟨?_, ?_, ?_⟩
    · rw [hfst, hids]
      exact hsa
    · intro hlen
      obtain ⟨rfl⟩ : os = [] := by
        simpa using List.length_eq_zero.mp (by simpa using hlen)
      simp only [NodeRelationships_create]
      rw [hids]
      simp [List.range'_one]
    · intro hlen
      obtain ⟨o2, os', rfl⟩ : ∃ o2 os', os = o2 :: os' := by
        cases os with
        | nil => simp at hlen
        | cons a b => exact ⟨a, b, rfl⟩
      simp only [NodeRelationships_create]
      rw [hids]
      simp [List.range'_succ]

/-- Witness for C10: an empty store; no target raises, two targets create
two propertied relationships. -/
theorem C10_create_contract_witness :
    NodeRelationships_create (fun n : Nat => n) (⟨0, []⟩ : GraphState Nat) 0
        (.str "KNOWS") [] [("w", 5)]
      = (⟨0, []⟩, .error (.typeError "No target node specified")) ∧
    (NodeRelationships_create (fun n : Nat => n) (⟨0, []⟩ : GraphState Nat) 0
        (.str "KNOWS") [1, 2] [("w", 5)]).1.createdRels
      = freshRels "KNOWS" 0 [("w", 5)] 0 [1, 2] ∧
    (NodeRelationships_create (fun n : Nat => n) (⟨0, []⟩ : GraphState Nat) 0
        (.str "KNOWS") [1, 2] [("w", 5)]).2
      = .ok (.multiple [0, 1]) := by
  have h0 := C10_create_contract (fun n : Nat => n) (⟨0, []⟩ : GraphState Nat)
    0 (.str "KNOWS") [] [("w", 5)] (by simp)
  have h2 := C10_create_contract (fun n : Nat => n) (⟨0, []⟩ : GraphState Nat)
    0 (.str "KNOWS") [1, 2] [("w", 5)] (by simp)
  refine ⟨h0.1 rfl, ?_, ?_⟩
  · have := (h2.2 (by simp)).1
    simpa using this
  · have := (h2.2 (by simp)).2.2 (by simp)
    simpa [List.range'_succ] using this

/-- Witness for C3: the star-graph run, breadth-first and depth-first. -/
theorem C3_traversal_order_witness :
    List.Sorted (· ≤ ·)
      ((traverse starGraph starDescription 0 5).map TraversalPath.length) ∧
    (⟨0, []⟩ : TraversalPath).Extends ⟨0, [⟨⟨0, "KNOWS", 0, 1⟩, 1⟩]⟩ := by
  constructor
  · exact (C3_traversal_order starGraph starDescription 0 5).1 rfl
  · exact (C3_traversal_order starGraph starDescriptionDFS 0 5).2 rfl
      ⟨0, []⟩ ⟨0, [⟨⟨0, "KNOWS", 0, 1⟩, 1⟩]⟩
      [⟨0, [⟨⟨1, "KNOWS", 0, 2⟩, 2⟩]⟩, ⟨0, [⟨⟨2, "KNOWS", 0, 3⟩, 3⟩]⟩]
      (by decide) rfl

end Neo4j
